import Mathlib

/-!
# Verification of the nvim-strudel engine discovery / connection / relay subsystem

Shallow embedding of the core of the `nvim-strudel` repository:

* the newline-delimited JSON framing of the LSP client's engine socket
  (`tryConnect`'s `data` handler in the LSP server file);
* the shared engine state file (`engine-state.ts`): `writeEngineState`,
  `readEngineState`, `pollEngineState`;
* the reconnect state machine of `connectToEngine` (watch handler, grace
  timer, socket lifecycle);
* the OSC event relay (`osc-output.ts`): `hapToOscArgs`,
  `sendHapToSuperDirt`;
* the Neovim-side process supervisor (`utils.lua`): `M.start_server`'s
  stdout readiness detection.

Byte strings are modelled as `List Char`, JavaScript numbers as `ℚ`
(exact arithmetic; the embedding does not model IEEE rounding, NaN or
infinities), JSON values as the inductive `JVal`, and the event-driven
mutable state of each module as explicit state-passing functions.
-/

namespace Strudel

/-! ## Newline framing (LSP client socket `data` handler)

The handler keeps a partial-line accumulator `engineBuffer` and runs

```js
engineBuffer += data.toString();
let newlineIndex;
while ((newlineIndex = engineBuffer.indexOf('\n')) !== -1) {
  const line = engineBuffer.slice(0, newlineIndex);
  engineBuffer = engineBuffer.slice(newlineIndex + 1);
  if (line.trim()) {
    try { const msg = JSON.parse(line); handleEngineMessage(msg); }
    catch (e) { /* Ignore parse errors */ }
  }
}
```

`splitLines` captures the loop: it returns the complete lines (the
segments before each `'\n'`) in order, together with the residue after
the last `'\n'`, which becomes the new accumulator. -/

/-- Split a buffer at newline characters: the first component is the list
of completed lines (text before each `'\n'`, in order), the second is the
trailing residue with no `'\n'` in it (the new partial-line buffer). -/
def splitLines : List Char → List (List Char) × List Char
  | [] => ([], [])
  | c :: rest =>
    let p := splitLines rest
    if c = '\n' then
      ([] :: p.1, p.2)
    else
      match p.1 with
      | [] => ([], c :: p.2)
      | l :: ls => ((c :: l) :: ls, p.2)

/-- Whitespace recognised by `String.prototype.trim` (the ASCII part,
which is all the protocol ever produces). -/
def isJsSpace (c : Char) : Bool :=
  c = ' ' || c = '\t' || c = '\n' || c = '\r' || c = '\x0b' || c = '\x0c'

/-- `line.trim()` is falsy exactly when every character is whitespace. -/
def isBlank (l : List Char) : Bool := l.all isJsSpace

/-- The connection-local parsing state: the partial-line accumulator
plus the messages delivered to `handleEngineMessage` so far.  `M` is the
type of parsed messages and is abstract; `JSON.parse` (which may fail,
failures being silently dropped) is a parameter. -/
structure ConnBuf (M : Type) where
  buffer : List Char
  msgs : List M

/-- The socket `data` handler: append the chunk to the accumulator,
extract every completed line, and deliver each non-blank line that
parses.  (The `while`/`indexOf`/`slice` loop of the source removes one
line at a time; `splitLines` removes them all at once, which is the same
sequence of lines and the same residue.) -/
def onData {M : Type} (parse : List Char → Option M) (st : ConnBuf M)
    (chunk : List Char) : ConnBuf M :=
  let p := splitLines (st.buffer ++ chunk)
  { buffer := p.2
    msgs := st.msgs ++ p.1.filterMap fun l => if isBlank l then none else parse l }

theorem splitLines_append (x y : List Char) :
    splitLines (x ++ y) =
      ((splitLines x).1 ++ (splitLines ((splitLines x).2 ++ y)).1,
       (splitLines ((splitLines x).2 ++ y)).2) := by
  induction x with
  | nil => simp [splitLines]
  | cons c rest ih =>
    by_cases hc : c = '\n'
    · subst hc
      simp [splitLines, ih]
    · cases h : (splitLines rest).1 with
      | nil =>
        cases h2 : (splitLines ((splitLines rest).2 ++ y)).1 with
        | nil => simp [splitLines, hc, ih, h, h2]
        | cons l2 ls2 => simp [splitLines, hc, ih, h, h2]
      | cons l ls => simp [splitLines, hc, ih, h]

theorem onData_append {M : Type} (parse : List Char → Option M)
    (st : ConnBuf M) (a b : List Char) :
    onData parse (onData parse st a) b = onData parse st (a ++ b) := by
  have h : st.buffer ++ (a ++ b) = st.buffer ++ a ++ b :=
    (List.append_assoc _ _ _).symm
  simp only [onData]
  rw [h, splitLines_append (st.buffer ++ a) b]
  simp [List.filterMap_append]

/-- C1.  Framing correctness of the client's line parser: feeding a byte
sequence to the socket `data` handler one chunk at a time — for any
partition of the sequence into one or more chunks — produces exactly the
same sequence of parsed messages and the same remaining partial-line
buffer as delivering the whole sequence in a single read. -/
theorem framing_chunked_eq_unchunked {M : Type} (parse : List Char → Option M)
    (c : List Char) (cs : List (List Char)) (st : ConnBuf M) :
    List.foldl (onData parse) st (c :: cs) = onData parse st (c :: cs).flatten := by
  induction cs generalizing c st with
  | nil => simp
  | cons c' cs ih =>
    have h := ih c' (onData parse st c)
    simp only [List.foldl_cons] at h ⊢
    rw [h, onData_append]
    simp

/-! ## JSON values and JavaScript coercions

`engine-state.ts` and `osc-output.ts` manipulate parsed JSON / plain
JavaScript values: numbers, strings, booleans, null, arrays, objects.
`JVal` is that value domain (numbers as `ℚ`; the embedding has no NaN or
infinities). -/

inductive JVal where
  | jnull
  | jbool (b : Bool)
  | jnum (q : ℚ)
  | jstr (s : String)
  | jarr (elems : List JVal)
  | jobj (fields : List (String × JVal))

/-- Object field lookup as produced by `JSON.parse`: when a key is
duplicated in the source text, the last occurrence wins. -/
def lookupField : List (String × JVal) → String → Option JVal
  | [], _ => none
  | (k', v) :: rest, k =>
    match lookupField rest k with
    | some w => some w
    | none => if k' = k then some v else none

/-- JavaScript property access `v.k`: a field of an object, `undefined`
(here `none`) on a non-object.  (On `null` the access throws, but the
only call site, `readEngineState`, wraps it in `try`/`catch` and returns
`null`, which is the same observable outcome as `undefined` there.) -/
def getField : JVal → String → Option JVal
  | .jobj fs, k => lookupField fs k
  | _, _ => none

/-- JavaScript truthiness of a possibly-`undefined` value (`none` =
`undefined`). -/
def truthy : Option JVal → Bool
  | none => false
  | some .jnull => false
  | some (.jbool b) => b
  | some (.jnum q) => decide (q ≠ 0)
  | some (.jstr s) => decide (s ≠ "")
  | some (.jarr _) => true
  | some (.jobj _) => true

/-- `typeof v === 'number'` for a possibly-`undefined` value. -/
def isNumber : Option JVal → Bool
  | some (.jnum _) => true
  | _ => false

/-- The content of a file as seen through `JSON.parse`: either text that
fails to parse, or a parsed JSON value. -/
inductive RawContent where
  | garbage
  | json (v : JVal)

/-! ## StateStore (`engine-state.ts`)

```ts
export function readEngineState(): EngineState | null {
  const statePath = getStateFilePath();
  try {
    if (!fs.existsSync(statePath)) return null;
    const content = fs.readFileSync(statePath, 'utf-8');
    const state = JSON.parse(content) as EngineState;
    // Validate structure - just need pid and port
    if (!state.pid || typeof state.port !== 'number') return null;
    return state;
  } catch (e) { return null; }
}
```

The file's content is modelled as `Option RawContent` (`none` = the
file does not exist). -/

/-- `readEngineState`, as a total function of the state file's content.
Every branch of the source (missing file, parse failure, failed
validation, success) is a returned value; nothing escapes the
`try`/`catch`. -/
def readEngineState : Option RawContent → Option JVal
  | none => none
  | some .garbage => none
  | some (.json v) =>
    if truthy (getField v "pid") && isNumber (getField v "port") then some v
    else none

/-- The record `writeEngineState` serialises:
`{...state, timestamp: Date.now(), version: '1.0.0'}` with
`state = {pid, port}`.  `recordJson` generalises the version string so
that records written by other engine versions can be talked about. -/
def recordJson (pid port ts : ℚ) (ver : String) : JVal :=
  .jobj [("pid", .jnum pid), ("port", .jnum port),
         ("timestamp", .jnum ts), ("version", .jstr ver)]

/-- The exact record written by this version of `writeEngineState`. -/
def stateJson (pid port ts : ℚ) : JVal := recordJson pid port ts "1.0.0"

/-- A file system: a map from paths to file contents.  The state file is
the only object mutated by more than one process, so this is all the
file-system state the module touches. -/
def Fs : Type := String → Option RawContent

/-- Write (or remove, with `none`) one path. -/
def Fs.update (fs : Fs) (p : String) (c : Option RawContent) : Fs :=
  fun q => if q = p then c else fs q

/-- `getStateFilePath()`: `path.join(getStateDir(), 'engine-state.json')`.
The directory is platform-dependent configuration; it is a parameter
here. -/
def stateFilePath (stateDir : String) : String := stateDir ++ "/engine-state.json"

/-- The temp path `${statePath}.tmp` used by `writeEngineState`. -/
def tempFilePath (stateDir : String) : String := stateFilePath stateDir ++ ".tmp"

/-- The sequence of file-system states produced by `writeEngineState`:
the initial state (`mkdirSync` creates no files), the state after
`fs.writeFileSync(tempPath, JSON.stringify(fullState, null, 2))`, and
the state after `fs.renameSync(tempPath, statePath)` (the destination
receives the source's content, the source disappears).  A reader may
run between any two steps, so it observes exactly one element of this
trace. -/
def writeEngineStateTrace (fs0 : Fs) (stateDir : String) (pid port now : ℚ) :
    List Fs :=
  let sp := stateFilePath stateDir
  let tp := tempFilePath stateDir
  let fs1 := fs0.update tp (some (.json (stateJson pid port now)))
  let fs2 := (fs1.update sp (fs1 tp)).update tp none
  [fs0, fs1, fs2]

/-- A state-file observation that is a complete record: some version's
`{pid, port, timestamp, version}` object. -/
def completeRecord (c : Option RawContent) : Prop :=
  ∃ p q t ver, c = some (.json (recordJson p q t ver))

/-- The observation `c` has field `k` (it is a parsed object binding
`k`). -/
def obsHasField (c : Option RawContent) (k : String) : Prop :=
  ∃ v, c = some (.json v) ∧ (getField v k).isSome

theorem tempFilePath_ne_stateFilePath (stateDir : String) :
    tempFilePath stateDir ≠ stateFilePath stateDir := by
  intro h
  have h2 := congrArg String.length h
  simp [tempFilePath, String.length_append] at h2
  exact absurd h2 (by decide)

theorem completeRecord_hasField {c : Option RawContent}
    (h : completeRecord c) (k : String)
    (hk : k = "pid" ∨ k = "port" ∨ k = "timestamp" ∨ k = "version") :
    obsHasField c k := by
  obtain ⟨p, q, t, ver, rfl⟩ := h
  refine ⟨recordJson p q t ver, rfl, ?_⟩
  rcases hk with rfl | rfl | rfl | rfl <;>
    simp [recordJson, getField, lookupField]

/-- C2.  Atomicity of the state write: at every point during
`writeEngineState` — before the temp write, between the temp write and
the rename, and after the rename — a reader of the state file observes
either no file at all or one complete record; in particular it never
observes `port` present with `pid` absent.  (Hypothesis: the state file
held no partial record before the call, i.e. it was absent or held a
complete record, which is what every earlier `writeEngineState` leaves
behind.) -/
theorem writeEngineState_atomic (fs0 : Fs) (stateDir : String)
    (pid port now : ℚ)
    (h0 : fs0 (stateFilePath stateDir) = none ∨
          completeRecord (fs0 (stateFilePath stateDir))) :
    ∀ fs ∈ writeEngineStateTrace fs0 stateDir pid port now,
      (fs (stateFilePath stateDir) = none ∨
       completeRecord (fs (stateFilePath stateDir))) ∧
      (obsHasField (fs (stateFilePath stateDir)) "port" →
       obsHasField (fs (stateFilePath stateDir)) "pid") := by
  have hne := (tempFilePath_ne_stateFilePath stateDir).symm
  have main : ∀ fs ∈ writeEngineStateTrace fs0 stateDir pid port now,
      fs (stateFilePath stateDir) = none ∨
      completeRecord (fs (stateFilePath stateDir)) := by
    intro fs hfs
    simp only [writeEngineStateTrace, List.mem_cons, List.mem_singleton,
      List.not_mem_nil, or_false] at hfs
    rcases hfs with rfl | rfl | rfl
    · exact h0
    · -- after the temp write: the state file is untouched
      simpa [Fs.update, hne] using h0
    · -- after the rename: the state file holds the full record
      right
      refine ⟨pid, port, now, "1.0.0", ?_⟩
      simp [Fs.update, hne, stateJson]
  intro fs hfs
  refine ⟨main fs hfs, fun hport => ?_⟩
  rcases main fs hfs with habs | hcomp
  · obtain ⟨v, hv, _⟩ := hport
    rw [habs] at hv
    exact absurd hv (by simp)
  · exact completeRecord_hasField hcomp "pid" (Or.inl rfl)

/-- Witness for C2 at a concrete input: empty file system, directory
`"d"`, pid 1, port 2, timestamp 3. -/
theorem writeEngineState_atomic_witness :
    (((fun _ => none : Fs) (stateFilePath "d") = none ∨
      completeRecord ((fun _ => none : Fs) (stateFilePath "d")))) ∧
    ∀ fs ∈ writeEngineStateTrace (fun _ => none) "d" 1 2 3,
      (fs (stateFilePath "d") = none ∨
       completeRecord (fs (stateFilePath "d"))) ∧
      (obsHasField (fs (stateFilePath "d")) "port" →
       obsHasField (fs (stateFilePath "d")) "pid") :=
  ⟨Or.inl rfl, writeEngineState_atomic (fun _ => none) "d" 1 2 3 (Or.inl rfl)⟩

/-! ## State-file validation (C5, C6)

The source validates only `pid` (JavaScript truthiness) and `port`
(`typeof === 'number'`); `timestamp` and `version` are never examined:

```ts
if (!state.pid || typeof state.port !== 'number') return null;
```
-/

/-- A syntactically well-formed record that omits `timestamp` and
`version` entirely. -/
def noTimestampRecord : JVal := .jobj [("pid", .jnum 1), ("port", .jnum 2)]

/-- C5 counterexample.  The claim says a state file omitting any of
`pid`, `port`, `timestamp`, `version` reads as "no engine"; but the file
`{"pid":1,"port":2}`, which omits both `timestamp` and `version`, is
accepted and returned by `readEngineState`. -/
theorem readEngineState_accepts_missing_timestamp :
    readEngineState (some (.json noTimestampRecord)) = some noTimestampRecord ∧
    getField noTimestampRecord "timestamp" = none ∧
    getField noTimestampRecord "version" = none :=
  ⟨rfl, rfl, rfl⟩

/-- C5 (amended).  The read reports "no engine" for exactly those parsed
state files whose `pid` is missing or falsy or whose `port` is not a
number; `timestamp` and `version` (and the type of a truthy `pid`) are
not validated. -/
theorem readEngineState_validation_amended (v : JVal) :
    readEngineState (some (.json v)) = none ↔
      (truthy (getField v "pid") = false ∨
       isNumber (getField v "port") = false) := by
  cases h1 : truthy (getField v "pid") <;>
    cases h2 : isNumber (getField v "port") <;>
      simp [readEngineState, h1, h2]

/-- C6.  Totality of the state read: every possible content of the state
file is covered by a returned value — `none` on a missing file, on
unparsable JSON and on a parsed value lacking `pid` or `port`, and the
record itself on a valid record.  The embedding is a total function:
every branch of the source returns, and the whole body sits inside
`try`/`catch`, so the operation never throws. -/
theorem readEngineState_total :
    readEngineState none = none ∧
    readEngineState (some .garbage) = none ∧
    (∀ v : JVal, getField v "pid" = none ∨ getField v "port" = none →
       readEngineState (some (.json v)) = none) ∧
    (∀ p q t : ℚ, ∀ ver : String, p ≠ 0 →
       readEngineState (some (.json (recordJson p q t ver))) =
         some (recordJson p q t ver)) := by
  refine ⟨rfl, rfl, ?_, ?_⟩
  · intro v h
    rcases h with h | h <;> simp [readEngineState, h, truthy, isNumber]
  · intro p q t ver hp
    have h1 : getField (recordJson p q t ver) "pid" = some (.jnum p) := rfl
    have h2 : getField (recordJson p q t ver) "port" = some (.jnum q) := rfl
    simp [readEngineState, h1, h2, truthy, isNumber, hp]

/-- Witness for C6 at concrete inputs: a record missing `pid` reads as
`none`; the record `{pid:1, port:2, timestamp:3, version:"1.0.0"}`
reads back as itself. -/
theorem readEngineState_total_witness :
    getField (JVal.jobj [("port", .jnum 2)]) "pid" = none ∧
    readEngineState (some (.json (.jobj [("port", .jnum 2)]))) = none ∧
    (1 : ℚ) ≠ 0 ∧
    readEngineState (some (.json (recordJson 1 2 3 "1.0.0"))) =
      some (recordJson 1 2 3 "1.0.0") :=
  ⟨rfl, readEngineState_total.2.2.1 _ (Or.inl rfl), one_ne_zero,
   readEngineState_total.2.2.2 1 2 3 "1.0.0" one_ne_zero⟩

/-! ## StateWatcher polling fallback (`pollEngineState`, C9)

```ts
let lastTimestamp = 0;
const poll = () => {
  const state = readEngineState();
  if (state && state.timestamp !== lastTimestamp) {
    lastTimestamp = state.timestamp;
    callback(state);
  } else if (!state && lastTimestamp !== 0) {
    lastTimestamp = 0;
    callback(null);
  }
};
```
-/

/-- The record a poll tick sees (a valid `EngineState` as returned by
`readEngineState`, with numeric fields). -/
structure PolledState where
  pid : ℚ
  port : ℚ
  timestamp : ℚ

/-- One poll tick: given the current `lastTimestamp` and the result of
`readEngineState`, return the new `lastTimestamp` and the callback
invocation, if any (`some (some s)` = called with a record,
`some none` = called with `null`, `none` = not called). -/
def pollStep (last : ℚ) (r : Option PolledState) :
    ℚ × Option (Option PolledState) :=
  match r with
  | some s => if s.timestamp ≠ last then (s.timestamp, some (some s)) else (last, none)
  | none => if last ≠ 0 then ((0 : ℚ), some none) else (last, none)

/-- A run of poll ticks over a sequence of read results: final
`lastTimestamp` and the list of callback invocations in order. -/
def pollRun : ℚ → List (Option PolledState) → ℚ × List (Option PolledState)
  | last, [] => (last, [])
  | last, r :: rs =>
    let p := pollStep last r
    let q := pollRun p.1 rs
    (q.1, p.2.toList ++ q.2)

theorem pollRun_cons (last : ℚ) (r : Option PolledState)
    (rs : List (Option PolledState)) :
    pollRun last (r :: rs) =
      ((pollRun (pollStep last r).1 rs).1,
       (pollStep last r).2.toList ++ (pollRun (pollStep last r).1 rs).2) := rfl

theorem pollStep_cases (last : ℚ) (r : Option PolledState) :
    ((pollStep last r).2 = none ∧ (pollStep last r).1 = last) ∨
    (∃ s, r = some s ∧ s.timestamp ≠ last ∧
      pollStep last r = (s.timestamp, some (some s))) ∨
    (r = none ∧ last ≠ 0 ∧ pollStep last r = ((0 : ℚ), some none)) := by
  cases r with
  | none =>
    rcases eq_or_ne last 0 with rfl | h
    · exact Or.inl (by simp [pollStep])
    · exact Or.inr (Or.inr ⟨rfl, h, by simp [pollStep, h]⟩)
  | some s =>
    rcases eq_or_ne s.timestamp last with h | h
    · exact Or.inl (by simp [pollStep, h])
    · exact Or.inr (Or.inl ⟨s, rfl, h, by simp [pollStep, h]⟩)

/-- `lastTimestamp` always records the run's last notification: it is
untouched by a run with no notifications, it equals the timestamp of the
last record notified, and it is `0` after a disappearance
notification. -/
theorem pollRun_lastTimestamp (reads : List (Option PolledState)) :
    ∀ last : ℚ,
      ((pollRun last reads).2 = [] → (pollRun last reads).1 = last) ∧
      (∀ s, (pollRun last reads).2.getLast? = some (some s) →
        (pollRun last reads).1 = s.timestamp) ∧
      ((pollRun last reads).2.getLast? = some none →
        (pollRun last reads).1 = 0) := by
  induction reads with
  | nil => intro last; simp [pollRun]
  | cons r rs ih =>
    intro last
    rcases pollStep_cases last r with ⟨h2, h1⟩ | ⟨s, hr, hne, heq⟩ | ⟨hr, hne, heq⟩
    · simpa [pollRun_cons, h2, h1] using ih last
    · rw [pollRun_cons, heq]
      dsimp only
      obtain ⟨ih1, ih2, ih3⟩ := ih s.timestamp
      cases hq : (pollRun s.timestamp rs).2 with
      | nil =>
        have hfst := ih1 hq
        refine ⟨by simp [hq], ?_, ?_⟩
        · intro s' h'
          simp [hq] at h'
          subst h'
          exact hfst
        · intro h'
          simp [hq] at h'
      | cons x xs =>
        refine ⟨by simp [hq], ?_, ?_⟩
        · intro s' h'
          simp only [Option.toList_some, List.singleton_append,
            List.getLast?_cons_cons] at h'
          exact ih2 s' (by rw [hq]; exact h')
        · intro h'
          simp only [Option.toList_some, List.singleton_append,
            List.getLast?_cons_cons] at h'
          exact ih3 (by rw [hq]; exact h')
    · rw [pollRun_cons, heq]
      dsimp only
      obtain ⟨ih1, ih2, ih3⟩ := ih 0
      cases hq : (pollRun (0 : ℚ) rs).2 with
      | nil =>
        have hfst := ih1 hq
        refine ⟨by simp [hq], ?_, ?_⟩
        · intro s' h'
          simp [hq] at h'
        · intro _
          exact hfst
      | cons x xs =>
        refine ⟨by simp [hq], ?_, ?_⟩
        · intro s' h'
          simp only [Option.toList_some, List.singleton_append,
            List.getLast?_cons_cons] at h'
          exact ih2 s' (by rw [hq]; exact h')
        · intro h'
          simp only [Option.toList_some, List.singleton_append,
            List.getLast?_cons_cons] at h'
          exact ih3 (by rw [hq]; exact h')

/-- C9.  The polling fallback suppresses duplicate notifications: a tick
whose read returns a record with timestamp equal to `lastTimestamp` does
not invoke the callback; the callback is invoked only with a record
whose timestamp differs from `lastTimestamp`, or once with the absent
result when the file disappears after having been seen (the tick resets
`lastTimestamp` to 0, so an immediately following absent read does not
notify again); and over any run, `lastTimestamp` is exactly the
timestamp of the last record for which the callback was invoked (0 for
an absence notification, unchanged when nothing was notified). -/
theorem pollEngineState_dedup :
    (∀ last : ℚ, ∀ s : PolledState, s.timestamp = last →
       pollStep last (some s) = (last, none)) ∧
    (∀ (last : ℚ) (r : Option PolledState) (inv : Option PolledState),
       (pollStep last r).2 = some inv →
       (∃ s, r = some s ∧ inv = some s ∧ s.timestamp ≠ last) ∨
       (r = none ∧ inv = none ∧ last ≠ 0)) ∧
    (∀ last : ℚ, ((pollStep last none).2).isSome →
       (pollStep last none).1 = 0 ∧ (pollStep (0 : ℚ) none).2 = none) ∧
    (∀ (reads : List (Option PolledState)) (last : ℚ),
       ((pollRun last reads).2 = [] → (pollRun last reads).1 = last) ∧
       (∀ s, (pollRun last reads).2.getLast? = some (some s) →
         (pollRun last reads).1 = s.timestamp) ∧
       ((pollRun last reads).2.getLast? = some none →
         (pollRun last reads).1 = 0)) := by
  refine ⟨?_, ?_, ?_, fun reads last => pollRun_lastTimestamp reads last⟩
  · intro last s h
    simp [pollStep, h]
  · intro last r inv h
    rcases pollStep_cases last r with ⟨h2, _⟩ | ⟨s, hr, hne, heq⟩ | ⟨hr, hne, heq⟩
    · rw [h2] at h; exact absurd h (by simp)
    · rw [heq] at h
      simp only [Option.some.injEq] at h
      exact Or.inl ⟨s, hr, h.symm, hne⟩
    · rw [heq] at h
      simp only [Option.some.injEq] at h
      exact Or.inr ⟨hr, h.symm, hne⟩
  · intro last h
    rcases eq_or_ne last 0 with rfl | hl
    · simp [pollStep] at h
    · exact ⟨by simp [pollStep, hl], by simp [pollStep]⟩

/-- Witness for C9 at concrete inputs: a tick seeing timestamp 5 with
`lastTimestamp` 5 does not notify; a disappearance tick at
`lastTimestamp` 7 resets to 0 and a repeat does not notify; an empty run
leaves `lastTimestamp` at 3. -/
theorem pollEngineState_dedup_witness :
    pollStep 5 (some ⟨1, 2, 5⟩) = (5, none) ∧
    ((pollStep 7 none).1 = 0 ∧ (pollStep (0 : ℚ) none).2 = none) ∧
    (pollRun 3 []).1 = 3 :=
  ⟨pollEngineState_dedup.1 5 ⟨1, 2, 5⟩ rfl,
   pollEngineState_dedup.2.2.1 7 (by norm_num [pollStep]),
   (pollEngineState_dedup.2.2.2 [] 3).1 rfl⟩

/-! ## EventRelay (`osc-output.ts`)

`hapToOscArgs` builds the outgoing control object

```js
const controls = { cps, cycle: begin, delta, ...value };
```

and then applies the note/bank/roomsize/speed transforms in source
order.  JavaScript objects are modelled as insertion-ordered association
lists with unique keys: assignment (`objSet`) overwrites in place or
appends, property read (`objGet`) finds the key.  `isNote` and
`noteToMidi` are imported from `@strudel/core` (outside this
repository), so they are parameters of the embedding. -/

/-- JavaScript property assignment `o.k = v` on an insertion-ordered
object: overwrite in place if the key exists, append otherwise. -/
def objSet : List (String × JVal) → String → JVal → List (String × JVal)
  | [], k, v => [(k, v)]
  | (k', w) :: rest, k, v =>
    if k' = k then (k', v) :: rest else (k', w) :: objSet rest k v

/-- JavaScript property read `o.k` on an object with unique keys. -/
def objGet (o : List (String × JVal)) (k : String) : Option JVal :=
  (o.find? fun p => p.1 == k).map (·.2)

/-- The object spread `{...o, ...l}`: assign every field of `l` into `o`
in order. -/
def spreadInto (o : List (String × JVal)) (l : List (String × JVal)) :
    List (String × JVal) :=
  l.foldl (fun acc kv => objSet acc kv.1 kv.2) o

/-- JavaScript `String(v)` coercion.  Only the string case is exercised
by the theorems below; number formatting is approximated by `ℚ`'s
`toString`. -/
def jsToString : JVal → String
  | .jstr s => s
  | .jbool b => if b then "true" else "false"
  | .jnull => "null"
  | .jnum q => toString q
  | .jarr _ => ""
  | .jobj _ => "[object Object]"

/-- JavaScript `+`: numeric addition on two numbers, string
concatenation otherwise (as in `controls.bank + controls.s`). -/
def jsAdd : JVal → JVal → JVal
  | .jnum a, .jnum b => .jnum (a + b)
  | a, b => .jstr (jsToString a ++ jsToString b)

/-- JavaScript `/` on the values reaching `controls.speed / cps`
(numbers; a finite nonzero divisor in every theorem below). -/
def jsDiv : JVal → JVal → JVal
  | .jnum a, .jnum b => .jnum (a / b)
  | _, _ => .jnum 0

/-- A timed event as consumed by `hapToOscArgs`: its control-value
object `hap.value || {}`, and the already-`valueOf`ed
`hap.wholeOrPart?.()?.begin` and `hap.duration` (the `??` defaults 0 and
1 are applied in `hapToControls`). -/
structure Hap where
  value : List (String × JVal)
  wholeOrPartBegin : Option ℚ
  duration : Option ℚ

/-- `controls.octave || 3`: the octave control if truthy, else 3. -/
def octaveOrDefault : Option JVal → JVal
  | some v => if truthy (some v) then v else .jnum 3
  | none => .jnum 3

/-- The note/midinote transform:

```js
if (typeof controls.note !== 'undefined') {
  if (isNote(controls.note)) {
    controls.midinote = noteToMidi(controls.note, controls.octave || 3);
  } else if (typeof controls.note === 'number') {
    controls.midinote = controls.note;
  }
}
``` -/
def noteTransform (isN : JVal → Bool) (n2m : JVal → JVal → ℚ)
    (o : List (String × JVal)) : List (String × JVal) :=
  match objGet o "note" with
  | none => o
  | some n =>
    if isN n then
      objSet o "midinote" (.jnum (n2m n (octaveOrDefault (objGet o "octave"))))
    else
      match n with
      | .jnum k => objSet o "midinote" (.jnum k)
      | _ => o

/-- `if (controls.bank && controls.s) controls.s = controls.bank + controls.s;` -/
def bankTransform (o : List (String × JVal)) : List (String × JVal) :=
  match objGet o "bank", objGet o "s" with
  | some b, some s =>
    if truthy (some b) && truthy (some s) then objSet o "s" (jsAdd b s) else o
  | _, _ => o

/-- `if (controls.roomsize) controls.size = controls.roomsize;` -/
def sizeTransform (o : List (String × JVal)) : List (String × JVal) :=
  match objGet o "roomsize" with
  | some r => if truthy (some r) then objSet o "size" r else o
  | none => o

/-- `if (controls.unit === 'c' && controls.speed != null) controls.speed = controls.speed / cps;` -/
def speedTransform (cps : ℚ) (o : List (String × JVal)) :
    List (String × JVal) :=
  match objGet o "unit", objGet o "speed" with
  | some (.jstr u), some sp =>
    if u = "c" then
      match sp with
      | .jnull => o
      | _ => objSet o "speed" (jsDiv sp (.jnum cps))
    else o
  | _, _ => o

/-- The transport fields of the control object:
`{cps, cycle: begin, delta}` with
`begin = hap.wholeOrPart?.()?.begin?.valueOf?.() ?? 0`,
`delta = (hap.duration?.valueOf?.() ?? 1) / cps`. -/
def transportObj (hap : Hap) (cps : ℚ) : List (String × JVal) :=
  [("cps", .jnum cps), ("cycle", .jnum (hap.wholeOrPartBegin.getD 0)),
   ("delta", .jnum ((hap.duration.getD 1) / cps))]

/-- The control object built by `hapToOscArgs` before flattening:
`{cps, cycle: begin, delta, ...value}` with the four transforms applied
in source order. -/
def hapToControls (isN : JVal → Bool) (n2m : JVal → JVal → ℚ)
    (hap : Hap) (cps : ℚ) : List (String × JVal) :=
  speedTransform cps
    (sizeTransform
      (bankTransform
        (noteTransform isN n2m (spreadInto (transportObj hap cps) hap.value))))

/-- One OSC argument: `{type:'s', value}` or `{type:'f', value}`. -/
inductive OscArg where
  | s (v : String)
  | f (v : ℚ)

/-- The per-value OSC argument: `'f'` for numbers, `'s'` for strings,
`String(val)` as `'s'` otherwise. -/
def argOfVal : JVal → OscArg
  | .jnum q => .f q
  | .jstr s => .s s
  | v => .s (jsToString v)

/-- `hapToOscArgs`: flatten the control object to alternating key/value
arguments, skipping `null` (and `undefined`, which the object model
cannot hold) values. -/
def hapToOscArgs (isN : JVal → Bool) (n2m : JVal → JVal → ℚ)
    (hap : Hap) (cps : ℚ) : List OscArg :=
  (hapToControls isN n2m hap cps).foldl
    (fun args kv =>
      match kv.2 with
      | .jnull => args
      | v => args ++ [.s kv.1, argOfVal v])
    []

/-- The OSC bundle sent by `sendHapToSuperDirt`: time tag
`osc.timeTag(0, deadline * 1000)` and one `/dirt/play` packet. -/
structure OscBundle where
  timeTagMs : ℚ
  address : String
  args : List OscArg

/-- The module state of `osc-output.ts`: `udpPort` (here just whether it
is non-null), `isOpen`, and the datagrams put on the wire. -/
structure OscState where
  udpPortBound : Bool
  isOpen : Bool
  sent : List OscBundle

/-- `sendHapToSuperDirt`: skip silently when no OSC target is bound;
otherwise build the timed bundle and send it.  `sendOk` models whether
`udpPort.send` succeeds; on failure the exception is caught
(`catch (err) { console.error(...) }`) and nothing else happens.  The
embedding is a total function: no branch throws to the caller. -/
def sendHapToSuperDirt (isN : JVal → Bool) (n2m : JVal → JVal → ℚ)
    (st : OscState) (hap : Hap) (deadline cps : ℚ) (sendOk : Bool) :
    OscState :=
  if !st.udpPortBound || !st.isOpen then st
  else
    let args := hapToOscArgs isN n2m hap cps
    let msg : OscBundle := ⟨deadline * 1000, "/dirt/play", args⟩
    if sendOk then { st with sent := st.sent ++ [msg] } else st

theorem objGet_cons (a : String) (b : JVal) (t : List (String × JVal))
    (k : String) :
    objGet ((a, b) :: t) k = if a = k then some b else objGet t k := by
  by_cases h : a = k <;> simp [objGet, List.find?_cons, h]

theorem objGet_objSet_self (o : List (String × JVal)) (k : String) (v : JVal) :
    objGet (objSet o k v) k = some v := by
  induction o with
  | nil => simp [objSet, objGet_cons]
  | cons p rest ih =>
    cases p with
    | mk a b =>
      by_cases h : a = k
      · simp [objSet, h, objGet_cons]
      · simp [objSet, h, objGet_cons, ih]

theorem objGet_objSet_ne (o : List (String × JVal)) {k k' : String}
    (v : JVal) (h : k ≠ k') :
    objGet (objSet o k' v) k = objGet o k := by
  induction o with
  | nil => simp [objSet, objGet_cons, objGet, Ne.symm h]
  | cons p rest ih =>
    cases p with
    | mk a b =>
      by_cases hp : a = k'
      · subst hp
        simp [objSet, objGet_cons, Ne.symm h]
      · simp [objSet, hp, objGet_cons, ih]

theorem objGet_eq_none_of_not_mem {l : List (String × JVal)} {k : String}
    (h : k ∉ l.map Prod.fst) : objGet l k = none := by
  induction l with
  | nil => rfl
  | cons p rest ih =>
    simp only [List.map_cons, List.mem_cons] at h
    push_neg at h
    cases p with
    | mk a b =>
      rw [objGet_cons, if_neg (Ne.symm h.1)]
      exact ih h.2

theorem objGet_spreadInto_of_absent (l : List (String × JVal)) {k : String} :
    ∀ o : List (String × JVal), objGet l k = none →
      objGet (spreadInto o l) k = objGet o k := by
  induction l with
  | nil => intro o _; rfl
  | cons p rest ih =>
    intro o h
    cases p with
    | mk a b =>
      rw [objGet_cons] at h
      by_cases ha : a = k
      · rw [if_pos ha] at h; simp at h
      · rw [if_neg ha] at h
        exact (ih (objSet o a b) h).trans (objGet_objSet_ne o b (Ne.symm ha))

theorem objGet_spreadInto_of_found (l : List (String × JVal)) {k : String}
    {x : JVal} :
    ∀ o : List (String × JVal), (l.map Prod.fst).Nodup →
      objGet l k = some x → objGet (spreadInto o l) k = some x := by
  induction l with
  | nil => intro o _ h; simp [objGet] at h
  | cons p rest ih =>
    intro o hnd h
    cases p with
    | mk a b =>
      simp only [List.map_cons, List.nodup_cons] at hnd
      rw [objGet_cons] at h
      by_cases ha : a = k
      · rw [if_pos ha] at h
        obtain rfl : b = x := by simpa using h
        subst ha
        have hrest : objGet rest a = none :=
          objGet_eq_none_of_not_mem hnd.1
        exact (objGet_spreadInto_of_absent rest (objSet o a b) hrest).trans
          (objGet_objSet_self o a b)
      · rw [if_neg ha] at h
        exact ih (objSet o a b) hnd.2 h

/-- When the spread-over object has no binding for `k`, the spread reads
as the spread-in object does at `k` (JS object keys are unique, hence
the `Nodup` hypothesis). -/
theorem objGet_spreadInto (l : List (String × JVal))
    (o : List (String × JVal)) {k : String}
    (hnd : (l.map Prod.fst).Nodup) (ho : objGet o k = none) :
    objGet (spreadInto o l) k = objGet l k := by
  cases h : objGet l k with
  | none => rw [objGet_spreadInto_of_absent l o h, ho]
  | some x => exact objGet_spreadInto_of_found l o hnd h

theorem objGet_noteTransform_ne (isN : JVal → Bool) (n2m : JVal → JVal → ℚ)
    (o : List (String × JVal)) {k : String} (h : k ≠ "midinote") :
    objGet (noteTransform isN n2m o) k = objGet o k := by
  unfold noteTransform
  cases objGet o "note" with
  | none => rfl
  | some n =>
    cases hf : isN n
    · cases n <;> simp [hf, objGet_objSet_ne _ _ h]
    · simp [hf, objGet_objSet_ne _ _ h]

theorem objGet_bankTransform_ne (o : List (String × JVal)) {k : String}
    (h : k ≠ "s") :
    objGet (bankTransform o) k = objGet o k := by
  unfold bankTransform
  cases objGet o "bank" with
  | none => rfl
  | some b =>
    cases objGet o "s" with
    | none => rfl
    | some s =>
      by_cases ht : (truthy (some b) && truthy (some s)) = true <;>
        simp [ht, objGet_objSet_ne _ _ h]

theorem objGet_sizeTransform_ne (o : List (String × JVal)) {k : String}
    (h : k ≠ "size") :
    objGet (sizeTransform o) k = objGet o k := by
  unfold sizeTransform
  cases objGet o "roomsize" with
  | none => rfl
  | some r =>
    by_cases ht : truthy (some r) = true <;> simp [ht, objGet_objSet_ne _ _ h]

theorem objGet_speedTransform_ne (cps : ℚ) (o : List (String × JVal))
    {k : String} (h : k ≠ "speed") :
    objGet (speedTransform cps o) k = objGet o k := by
  unfold speedTransform
  cases objGet o "unit" with
  | none => rfl
  | some u =>
    cases u <;> try rfl
    case jstr s =>
      cases objGet o "speed" with
      | none => rfl
      | some sp =>
        by_cases hu : s = "c"
        · cases sp <;> simp [hu, objGet_objSet_ne _ _ h]
        · simp [hu]

/-- C4.  EventRelay transform correctness.  With `ctl` the control
object of the outgoing datagram (`hapToControls`, which `hapToOscArgs`
flattens into the `/dirt/play` arguments), and for an event value map
with unique keys (a JavaScript object):
the merged-in transport fields read back as `cps`, `cycle = begin` and
`delta = duration / cps` wherever the value map does not itself bind
them; a `note` recognised by `isNote` resolves to
`midinote = noteToMidi(note, octave || 3)`; a numeric `note` not
recognised by `isNote` is copied to `midinote`; with truthy string
`bank` and `s`, `s` becomes `bank ++ s`; and with `unit === 'c'` and a
numeric `speed`, `speed` is rescaled to `speed / cps`. -/
theorem hapToOscArgs_transforms (isN : JVal → Bool) (n2m : JVal → JVal → ℚ)
    (hap : Hap) (cps : ℚ) (hnd : (hap.value.map Prod.fst).Nodup) :
    (objGet hap.value "cps" = none →
      objGet (hapToControls isN n2m hap cps) "cps" = some (.jnum cps)) ∧
    (objGet hap.value "cycle" = none →
      objGet (hapToControls isN n2m hap cps) "cycle" =
        some (.jnum (hap.wholeOrPartBegin.getD 0))) ∧
    (objGet hap.value "delta" = none →
      objGet (hapToControls isN n2m hap cps) "delta" =
        some (.jnum ((hap.duration.getD 1) / cps))) ∧
    (∀ n : JVal, objGet hap.value "note" = some n → isN n = true →
      objGet (hapToControls isN n2m hap cps) "midinote" =
        some (.jnum (n2m n (octaveOrDefault (objGet hap.value "octave"))))) ∧
    (∀ w : ℚ, objGet hap.value "note" = some (.jnum w) →
      isN (.jnum w) = false →
      objGet (hapToControls isN n2m hap cps) "midinote" =
        some (.jnum w)) ∧
    (∀ b t : String, objGet hap.value "bank" = some (.jstr b) →
      objGet hap.value "s" = some (.jstr t) → b ≠ "" → t ≠ "" →
      objGet (hapToControls isN n2m hap cps) "s" = some (.jstr (b ++ t))) ∧
    (∀ w : ℚ, objGet hap.value "unit" = some (.jstr "c") →
      objGet hap.value "speed" = some (.jnum w) →
      objGet (hapToControls isN n2m hap cps) "speed" =
        some (.jnum (w / cps))) := by
  have hsp : ∀ k : String, objGet (transportObj hap cps) k = none →
      objGet (spreadInto (transportObj hap cps) hap.value) k =
        objGet hap.value k :=
    fun k hk => objGet_spreadInto hap.value (transportObj hap cps) hnd hk
  refine ⟨?_, ?_, ?_, ?_, ?_, ?_, ?_⟩
  · intro h
    unfold hapToControls
    rw [objGet_speedTransform_ne _ _ (by decide),
      objGet_sizeTransform_ne _ (by decide),
      objGet_bankTransform_ne _ (by decide),
      objGet_noteTransform_ne _ _ _ (by decide),
      objGet_spreadInto_of_absent hap.value _ h]
    rfl
  · intro h
    unfold hapToControls
    rw [objGet_speedTransform_ne _ _ (by decide),
      objGet_sizeTransform_ne _ (by decide),
      objGet_bankTransform_ne _ (by decide),
      objGet_noteTransform_ne _ _ _ (by decide),
      objGet_spreadInto_of_absent hap.value _ h]
    rfl
  · intro h
    unfold hapToControls
    rw [objGet_speedTransform_ne _ _ (by decide),
      objGet_sizeTransform_ne _ (by decide),
      objGet_bankTransform_ne _ (by decide),
      objGet_noteTransform_ne _ _ _ (by decide),
      objGet_spreadInto_of_absent hap.value _ h]
    rfl
  · intro n hn hin
    unfold hapToControls
    rw [objGet_speedTransform_ne _ _ (by decide),
      objGet_sizeTransform_ne _ (by decide),
      objGet_bankTransform_ne _ (by decide)]
    have hnote := (hsp "note" rfl).trans hn
    have hoct : objGet (spreadInto (transportObj hap cps) hap.value) "octave" =
        objGet hap.value "octave" := hsp "octave" rfl
    unfold noteTransform
    rw [hnote, hoct]
    simp only [hin, if_true]
    exact objGet_objSet_self _ _ _
  · intro w hn hin
    unfold hapToControls
    rw [objGet_speedTransform_ne _ _ (by decide),
      objGet_sizeTransform_ne _ (by decide),
      objGet_bankTransform_ne _ (by decide)]
    have hnote := (hsp "note" rfl).trans hn
    unfold noteTransform
    rw [hnote]
    simp only [hin, Bool.false_eq_true, if_false]
    exact objGet_objSet_self _ _ _
  · intro b t hb ht hbne htne
    unfold hapToControls
    rw [objGet_speedTransform_ne _ _ (by decide),
      objGet_sizeTransform_ne _ (by decide)]
    have hb1 : objGet
        (noteTransform isN n2m (spreadInto (transportObj hap cps) hap.value))
        "bank" = some (.jstr b) := by
      rw [objGet_noteTransform_ne _ _ _ (by decide)]
      exact (hsp "bank" rfl).trans hb
    have ht1 : objGet
        (noteTransform isN n2m (spreadInto (transportObj hap cps) hap.value))
        "s" = some (.jstr t) := by
      rw [objGet_noteTransform_ne _ _ _ (by decide)]
      exact (hsp "s" rfl).trans ht
    unfold bankTransform
    rw [hb1, ht1]
    simp [truthy, hbne, htne, objGet_objSet_self, jsAdd, jsToString]
  · intro w hu hw
    unfold hapToControls
    have hu2 : objGet
        (sizeTransform (bankTransform
          (noteTransform isN n2m
            (spreadInto (transportObj hap cps) hap.value))))
        "unit" = some (.jstr "c") := by
      rw [objGet_sizeTransform_ne _ (by decide),
        objGet_bankTransform_ne _ (by decide),
        objGet_noteTransform_ne _ _ _ (by decide)]
      exact (hsp "unit" rfl).trans hu
    have hw2 : objGet
        (sizeTransform (bankTransform
          (noteTransform isN n2m
            (spreadInto (transportObj hap cps) hap.value))))
        "speed" = some (.jnum w) := by
      rw [objGet_sizeTransform_ne _ (by decide),
        objGet_bankTransform_ne _ (by decide),
        objGet_noteTransform_ne _ _ _ (by decide)]
      exact (hsp "speed" rfl).trans hw
    unfold speedTransform
    rw [hu2, hw2]
    simp [objGet_objSet_self, jsDiv]

/-- A concrete `isNote` for the witness: accepts strings ("c3" etc.). -/
def exIsNote : JVal → Bool
  | .jstr _ => true
  | _ => false

/-- A concrete `noteToMidi` for the witness: always 48. -/
def exNoteToMidi : JVal → JVal → ℚ := fun _ _ => 48

/-- A concrete event for the witness: a named note on sample `bd` of
bank `tr`, with cycle-scaled speed 2, spanning begin 1/2 for 4 cycles. -/
def exHap : Hap :=
  { value := [("note", .jstr "c3"), ("bank", .jstr "tr"), ("s", .jstr "bd"),
              ("unit", .jstr "c"), ("speed", .jnum 2)]
    wholeOrPartBegin := some (1/2)
    duration := some 4 }

/-- Witness for C4 at `exHap` with cps 2: the control map carries
`cps = 2`, `cycle = 1/2`, `delta = 4/2 = 2`, `midinote = 48`,
`s = "trbd"` and `speed = 2/2 = 1`. -/
theorem hapToOscArgs_transforms_witness :
    objGet (hapToControls exIsNote exNoteToMidi exHap 2) "cps" =
      some (.jnum 2) ∧
    objGet (hapToControls exIsNote exNoteToMidi exHap 2) "cycle" =
      some (.jnum (1/2)) ∧
    objGet (hapToControls exIsNote exNoteToMidi exHap 2) "delta" =
      some (.jnum 2) ∧
    objGet (hapToControls exIsNote exNoteToMidi exHap 2) "midinote" =
      some (.jnum 48) ∧
    objGet (hapToControls exIsNote exNoteToMidi exHap 2) "s" =
      some (.jstr "trbd") ∧
    objGet (hapToControls exIsNote exNoteToMidi exHap 2) "speed" =
      some (.jnum 1) := by
  have h := hapToOscArgs_transforms exIsNote exNoteToMidi exHap 2 (by decide)
  refine ⟨h.1 rfl, h.2.1 rfl, ?_, ?_, ?_, ?_⟩
  · have := h.2.2.1 rfl
    rw [this]
    norm_num [exHap]
  · exact h.2.2.2.1 (.jstr "c3") rfl rfl
  · exact h.2.2.2.2.2.1 "tr" "bd" rfl rfl (by decide) (by decide)
  · have := h.2.2.2.2.2.2 2 rfl rfl
    rw [this]
    norm_num

/-- C7.  The event relay degrades silently: with no bound OSC target
(`!udpPort || !isOpen`) the send is a no-op returning the state
unchanged and sending nothing; when the underlying `udpPort.send`
fails, the exception is swallowed and the state is likewise unchanged;
and in every case the relay's observable state (`udpPort`, `isOpen`) is
exactly as before.  The embedding is a total function — no branch of
the source throws to the caller. -/
theorem sendHapToSuperDirt_silent (isN : JVal → Bool)
    (n2m : JVal → JVal → ℚ) (st : OscState) (hap : Hap)
    (deadline cps : ℚ) (sendOk : Bool) :
    ((st.udpPortBound = false ∨ st.isOpen = false) →
      sendHapToSuperDirt isN n2m st hap deadline cps sendOk = st) ∧
    (sendOk = false →
      sendHapToSuperDirt isN n2m st hap deadline cps sendOk = st) ∧
    ((sendHapToSuperDirt isN n2m st hap deadline cps sendOk).udpPortBound =
        st.udpPortBound ∧
     (sendHapToSuperDirt isN n2m st hap deadline cps sendOk).isOpen =
        st.isOpen) := by
  unfold sendHapToSuperDirt
  cases hb : st.udpPortBound <;> cases ho : st.isOpen <;>
    cases hs : sendOk <;> simp [hb, ho, hs]

/-- Witness for C7 at concrete inputs: with the port unbound the state
is returned unchanged; with a bound open port but a failing send, the
state is likewise unchanged. -/
theorem sendHapToSuperDirt_silent_witness :
    sendHapToSuperDirt exIsNote exNoteToMidi ⟨false, false, []⟩ exHap 1 2 true =
      ⟨false, false, []⟩ ∧
    sendHapToSuperDirt exIsNote exNoteToMidi ⟨true, true, []⟩ exHap 1 2 false =
      ⟨true, true, []⟩ :=
  ⟨(sendHapToSuperDirt_silent exIsNote exNoteToMidi ⟨false, false, []⟩
      exHap 1 2 true).1 (Or.inl rfl),
   (sendHapToSuperDirt_silent exIsNote exNoteToMidi ⟨true, true, []⟩
      exHap 1 2 false).2.1 rfl⟩

/-! ## EngineLink reconnect machine (`connectToEngine` in the LSP server)

Module state of the client:

```ts
let engineSocket: Socket | null = null;
let engineBuffer = '';
let stopWatching: (() => void) | null = null;
let reconnectTimer: NodeJS.Timeout | null = null;
```

`tryConnect(state)` destroys the socket recorded in `engineSocket` (if
any), then calls `net.createConnection({port: state.port})`; the new
socket is recorded in `engineSocket` only in the connect callback.  The
watch handler cancels any pending reconnect timer and schedules a fresh
500 ms one; the `data`/`error`/`close` handlers are those embedded
above.  Events are delivered by the runtime; each carries the id of the
socket it concerns (the handler bodies ignore the id — they mutate the
shared module state unconditionally, exactly as the source closures
do). -/

/-- The validated engine state record the watcher hands to the client
(`newState` with its `pid` and `port` fields). -/
structure EngineRec where
  pid : Int
  port : Int
deriving DecidableEq

/-- One TCP socket object created by `net.createConnection`: its id, the
port it targets, and whether it is live (created and not yet
destroyed/closed). -/
structure Sock where
  id : Nat
  port : Int
  live : Bool
deriving DecidableEq

/-- Destroy/close socket `i` (also what the runtime does to a socket
that emitted `error`). -/
def markDead (socks : List Sock) (i : Nat) : List Sock :=
  socks.map fun s => if s.id = i then { s with live := false } else s

/-- The client's module state plus the bookkeeping needed to observe
it: every socket ever created, the ports passed to
`net.createConnection` in order, pending (scheduled, unfired,
uncancelled) timers with their target records, and the non-blank lines
handed to `JSON.parse`. -/
structure Client where
  engineSocket : Option Nat
  engineBuffer : List Char
  reconnectTimer : Option Nat
  timers : List (Nat × EngineRec)
  nextTimer : Nat
  socks : List Sock
  nextSock : Nat
  attempts : List Int
  linesDelivered : List (List Char)

/-- `tryConnect(state)`:

```ts
if (engineSocket) { engineSocket.destroy(); engineSocket = null; }
const socket = net.createConnection({ port: state.port, host: '127.0.0.1' }, () => {
  engineSocket = socket;
  socket.write(...getSamples...); ...
});
```

Only the socket recorded in `engineSocket` is destroyed; a pending
(not-yet-connected) socket from an earlier attempt is not. -/
def tryConnect (c : Client) (s : EngineRec) : Client :=
  let c :=
    match c.engineSocket with
    | some i => { c with socks := markDead c.socks i, engineSocket := none }
    | none => c
  { c with socks := c.socks ++ [⟨c.nextSock, s.port, true⟩]
           nextSock := c.nextSock + 1
           attempts := c.attempts ++ [s.port] }

/-- Runtime events delivered to the client's handlers.  `notify` is the
`watchEngineState` callback (with `alive = isEngineRunning(newState)`
precomputed, since process liveness is outside the embedding);
`timerFire` is the expiry of the 500 ms grace timer with handle `h`. -/
inductive LinkEv where
  | connectOk (i : Nat)
  | dataOn (i : Nat) (d : List Char)
  | errorOn (i : Nat)
  | closeOn (i : Nat)
  | notify (st : Option EngineRec) (alive : Bool)
  | timerFire (h : Nat)

/-- One event step of the client, each branch transcribing the
corresponding source handler:
* connect callback: `engineSocket = socket` (plus the pipelined queries);
* `data`: the framing handler embedded as `splitLines`;
* `error`: `engineSocket = null` (the runtime closes the errored socket);
* `close`: `engineSocket = null; engineBuffer = '';`
* watcher callback: on a valid live record, `clearTimeout(reconnectTimer)`
  then `reconnectTimer = setTimeout(() => tryConnect(newState), 500)`;
  on `null`, destroy the current socket; otherwise do nothing;
* timer expiry: run the scheduled `tryConnect(newState)` (one-shot). -/
def step (c : Client) : LinkEv → Client
  | .connectOk i => { c with engineSocket := some i }
  | .dataOn _ d =>
    let p := splitLines (c.engineBuffer ++ d)
    { c with engineBuffer := p.2
             linesDelivered := c.linesDelivered ++ p.1.filter fun l => !isBlank l }
  | .errorOn i => { c with engineSocket := none, socks := markDead c.socks i }
  | .closeOn i =>
    { c with engineSocket := none, engineBuffer := [], socks := markDead c.socks i }
  | .notify st alive =>
    match st with
    | some s =>
      if alive = true ∧ 0 < s.port then
        let timers :=
          match c.reconnectTimer with
          | some h => c.timers.filter fun t => t.1 != h
          | none => c.timers
        { c with timers := timers ++ [(c.nextTimer, s)]
                 reconnectTimer := some c.nextTimer
                 nextTimer := c.nextTimer + 1 }
      else c
    | none =>
      match c.engineSocket with
      | some i => { c with engineSocket := none, socks := markDead c.socks i }
      | none => c
  | .timerFire h =>
    match c.timers.find? (fun t => t.1 == h) with
    | some (_, s) => tryConnect { c with timers := c.timers.filter fun t => t.1 != h } s
    | none => c

/-- The number of live sockets. -/
def liveSockets (c : Client) : Nat := (c.socks.filter fun s => s.live).length

/-- A client with exactly one connected socket `a` to port `p0`, no
pending timer, and arbitrary remaining state — the state after a
successful connection. -/
def connectedClient (a : Nat) (p0 : Int) (buf : List Char)
    (rt : Option Nat) (nt ns : Nat) (att : List Int)
    (ls : List (List Char)) : Client :=
  { engineSocket := some a, engineBuffer := buf, reconnectTimer := rt,
    timers := [], nextTimer := nt, socks := [⟨a, p0, true⟩], nextSock := ns,
    attempts := att, linesDelivered := ls }

/-- C3 (amended).  Reconnect discipline in the claimed scenario: a
connected socket errors, then the watcher reports a valid record `s`
with a (different) positive port, then the grace timer fires.  Then: no
connection attempt is made before the timer fires and exactly one is
made when it fires, targeting the new record's port; scheduling first
cancels any pending reconnect timer, leaving exactly the one fresh
pending timer, which the firing consumes; the prior socket is dead
before the new one is created; and throughout this scenario at most one
socket is live.  (The unrestricted invariant "at most one live socket at
every point" does not hold for the code — see the counterexample
theorem: a reconnect while a previous attempt is still pending does not
destroy the pending socket, because `tryConnect` only destroys the
socket recorded in `engineSocket`.) -/
theorem reconnect_discipline_amended (a : Nat) (p0 : Int) (buf : List Char)
    (rt : Option Nat) (nt ns : Nat) (att : List Int) (ls : List (List Char))
    (s : EngineRec) (hport : 0 < s.port) (hdiff : s.port ≠ p0) :
    (step (connectedClient a p0 buf rt nt ns att ls)
        (.errorOn a)).attempts = att ∧
    (step (step (connectedClient a p0 buf rt nt ns att ls) (.errorOn a))
        (.notify (some s) true)).attempts = att ∧
    (step (step (step (connectedClient a p0 buf rt nt ns att ls)
        (.errorOn a)) (.notify (some s) true)) (.timerFire nt)).attempts =
      att ++ [s.port] ∧
    (step (connectedClient a p0 buf rt nt ns att ls)
        (.errorOn a)).socks = [⟨a, p0, false⟩] ∧
    (step (step (step (connectedClient a p0 buf rt nt ns att ls)
        (.errorOn a)) (.notify (some s) true)) (.timerFire nt)).socks =
      [⟨a, p0, false⟩, ⟨ns, s.port, true⟩] ∧
    (step (step (connectedClient a p0 buf rt nt ns att ls) (.errorOn a))
        (.notify (some s) true)).timers = [(nt, s)] ∧
    (step (step (connectedClient a p0 buf rt nt ns att ls) (.errorOn a))
        (.notify (some s) true)).reconnectTimer = some nt ∧
    (step (step (step (connectedClient a p0 buf rt nt ns att ls)
        (.errorOn a)) (.notify (some s) true)) (.timerFire nt)).timers = [] ∧
    liveSockets (connectedClient a p0 buf rt nt ns att ls) = 1 ∧
    liveSockets (step (connectedClient a p0 buf rt nt ns att ls)
        (.errorOn a)) = 0 ∧
    liveSockets (step (step (connectedClient a p0 buf rt nt ns att ls)
        (.errorOn a)) (.notify (some s) true)) = 0 ∧
    liveSockets (step (step (step (connectedClient a p0 buf rt nt ns att ls)
        (.errorOn a)) (.notify (some s) true)) (.timerFire nt)) = 1 ∧
    (∀ s2 : EngineRec, 0 < s2.port →
      (step (step (step (connectedClient a p0 buf rt nt ns att ls)
          (.errorOn a)) (.notify (some s) true))
          (.notify (some s2) true)).timers = [(nt + 1, s2)] ∧
      step (step (step (step (connectedClient a p0 buf rt nt ns att ls)
          (.errorOn a)) (.notify (some s) true)) (.notify (some s2) true))
          (.timerFire nt) =
        step (step (step (connectedClient a p0 buf rt nt ns att ls)
          (.errorOn a)) (.notify (some s) true)) (.notify (some s2) true) ∧
      (step (step (step (step (connectedClient a p0 buf rt nt ns att ls)
          (.errorOn a)) (.notify (some s) true)) (.notify (some s2) true))
          (.timerFire (nt + 1))).attempts = att ++ [s2.port]) := by
  rcases rt with _ | h0 <;>
    refine ⟨?_, ?_, ?_, ?_, ?_, ?_, ?_, ?_, ?_, ?_, ?_, ?_, ?_⟩ <;>
    first
      | (intro s2 hs2
         refine ⟨?_, ?_, ?_⟩ <;>
           simp [connectedClient, step, tryConnect, markDead, liveSockets,
             hport, hs2, List.find?, Nat.succ_ne_self])
      | simp [connectedClient, step, tryConnect, markDead, liveSockets,
          hport, List.find?]

/-- Witness for C3 (amended) at concrete inputs: socket 5 connected to
port 9000 errors; the watcher reports `{pid:42, port:9100}`; the grace
timer (handle 3) fires; exactly one new attempt, to 9100, results. -/
theorem reconnect_discipline_amended_witness :
    (0 : Int) < 9100 ∧ (9100 : Int) ≠ 9000 ∧
    (step (step (step (connectedClient 5 9000 [] none 3 6 [9000] [])
        (.errorOn 5)) (.notify (some ⟨42, 9100⟩) true))
        (.timerFire 3)).attempts = [9000, 9100] :=
  ⟨by decide, by decide,
   (reconnect_discipline_amended 5 9000 [] none 3 6 [9000] [] ⟨42, 9100⟩
      (by decide) (by decide)).2.2.1⟩

/-- A client with nothing connected and nothing pending: the module
state at LSP initialisation. -/
def freshClient : Client :=
  { engineSocket := none, engineBuffer := [], reconnectTimer := none,
    timers := [], nextTimer := 0, socks := [], nextSock := 0,
    attempts := [], linesDelivered := [] }

/-- Two watcher notifications whose grace timers both fire before either
connection attempt completes, after which both attempts succeed. -/
def overlappingAttempts : List LinkEv :=
  [.notify (some ⟨1, 7000⟩) true, .timerFire 0,
   .notify (some ⟨1, 7001⟩) true, .timerFire 1,
   .connectOk 0, .connectOk 1]

/-- C3 counterexample.  The claim's invariant "at every point at most
one live socket exists per logical link" fails on the code: when the
second `tryConnect` runs, the first attempt's socket is not yet recorded
in `engineSocket` (the connect callback has not run), so it is not
destroyed; after both attempts connect, two live sockets exist
simultaneously, and the first is leaked (it is not the one recorded in
`engineSocket`). -/
theorem reconnect_two_live_sockets :
    liveSockets (overlappingAttempts.foldl step freshClient) = 2 ∧
    (overlappingAttempts.foldl step freshClient).socks =
      [⟨0, 7000, true⟩, ⟨1, 7001, true⟩] ∧
    (overlappingAttempts.foldl step freshClient).engineSocket = some 1 := by
  decide

/-- C10.  Partial frames never cross connections: the socket `close`
handler resets the partial-frame accumulator to the empty string, so the
data processed on a subsequent connection is framed exactly as from an
empty buffer — the lines delivered after the close are those of the new
bytes alone. -/
theorem close_resets_partial_frames (c : Client) (i j : Nat) (d : List Char) :
    (step c (.closeOn i)).engineBuffer = [] ∧
    (step (step c (.closeOn i)) (.dataOn j d)).engineBuffer =
      (splitLines d).2 ∧
    (step (step c (.closeOn i)) (.dataOn j d)).linesDelivered =
      (step c (.closeOn i)).linesDelivered ++
        (splitLines d).1.filter (fun l => !isBlank l) := by
  refine ⟨rfl, ?_, ?_⟩ <;> simp [step]

/-! ## ProcessSupervisor (`utils.lua`, `M.start_server`)

The `on_stdout` handler:

```lua
on_stdout = function(_, data)
  for _, line in ipairs(data) do
    if line ~= '' then
      table.insert(stdout_chunks, line)
      M.debug('[server] ' .. line)
      if not started and line:match('listening on') then
        started = true
        if on_start then vim.schedule(on_start) end
      end
    end
  end
end
```

`'listening on'` contains no Lua pattern magic characters, so
`line:match('listening on')` is plain substring search. -/

/-- Substring search: does `pat` occur contiguously in the list? -/
def listSearch (pat : List Char) : List Char → Bool
  | [] => pat.isEmpty
  | c :: rest => pat.isPrefixOf (c :: rest) || listSearch pat rest

/-- The readiness marker the supervisor watches for. -/
def readyMarker : List Char := "listening on".toList

/-- `line:match('listening on')` as a Boolean. -/
def hasMarker (l : List Char) : Bool := listSearch readyMarker l

/-- The supervisor's per-launch stdout state: the one-shot `started`
flag, the collected `stdout_chunks`, the lines forwarded to the debug
sink, and the lines on which `on_start` was scheduled (the source
callback takes no argument; the triggering line is recorded here so the
specification can talk about it). -/
structure SupState where
  started : Bool
  stdoutChunks : List (List Char)
  debugSink : List (List Char)
  onStartCalls : List (List Char)

/-- Handle one stdout line, transcribing the loop body above. -/
def onStdoutLine (st : SupState) (line : List Char) : SupState :=
  if line = [] then st
  else
    let st' := { st with stdoutChunks := st.stdoutChunks ++ [line]
                         debugSink := st.debugSink ++ [line] }
    if !st'.started && hasMarker line then
      { st' with started := true, onStartCalls := st'.onStartCalls ++ [line] }
    else st'

/-- Handle one `on_stdout` batch of lines. -/
def processStdout (st : SupState) (lines : List (List Char)) : SupState :=
  lines.foldl onStdoutLine st

/-- The state when `M.start_server` installs the handler:
`started = false`, everything empty. -/
def initSup : SupState := ⟨false, [], [], []⟩

theorem processStdout_debug (lines : List (List Char)) :
    ∀ st : SupState,
      (processStdout st lines).debugSink =
        st.debugSink ++ lines.filter fun l => !l.isEmpty := by
  induction lines with
  | nil => intro st; simp [processStdout]
  | cons line rest ih =>
    intro st
    by_cases hl : line = []
    · subst hl
      simpa [processStdout, onStdoutLine] using ih st
    · have hfoldl :
          processStdout st (line :: rest) =
            processStdout (onStdoutLine st line) rest := rfl
      rw [hfoldl, ih]
      by_cases hm : (!st.started && hasMarker line) = true <;>
        simp [onStdoutLine, hl, hm, List.filter_cons]

theorem processStdout_started (lines : List (List Char)) :
    ∀ st : SupState, st.started = true →
      (processStdout st lines).onStartCalls = st.onStartCalls := by
  induction lines with
  | nil => intro st _; rfl
  | cons line rest ih =>
    intro st hst
    have hfoldl :
        processStdout st (line :: rest) =
          processStdout (onStdoutLine st line) rest := rfl
    by_cases hl : line = []
    · rw [hfoldl]
      rw [show onStdoutLine st line = st from by simp [onStdoutLine, hl]]
      exact ih st hst
    · rw [hfoldl]
      rw [show onStdoutLine st line =
            { st with stdoutChunks := st.stdoutChunks ++ [line]
                      debugSink := st.debugSink ++ [line] } from by
        simp [onStdoutLine, hl, hst]]
      exact ih _ hst

theorem processStdout_not_started (lines : List (List Char)) :
    ∀ st : SupState, st.started = false →
      (processStdout st lines).onStartCalls =
        st.onStartCalls ++
          (lines.find? fun l => !l.isEmpty && hasMarker l).toList := by
  induction lines with
  | nil => intro st _; simp [processStdout]
  | cons line rest ih =>
    intro st hst
    have hfoldl :
        processStdout st (line :: rest) =
          processStdout (onStdoutLine st line) rest := rfl
    by_cases hl : line = []
    · rw [hfoldl]
      rw [show onStdoutLine st line = st from by simp [onStdoutLine, hl]]
      rw [ih st hst]
      simp [hl, List.find?]
    · have hne : line.isEmpty = false := by
        cases line with
        | nil => exact absurd rfl hl
        | cons a t => rfl
      by_cases hm : hasMarker line = true
      · rw [hfoldl]
        rw [show onStdoutLine st line =
              { st with started := true
                        stdoutChunks := st.stdoutChunks ++ [line]
                        debugSink := st.debugSink ++ [line]
                        onStartCalls := st.onStartCalls ++ [line] } from by
          simp [onStdoutLine, hl, hst, hm]]
        rw [processStdout_started rest _ rfl]
        simp [List.find?, hne, hm]
      · rw [hfoldl]
        rw [show onStdoutLine st line =
              { st with stdoutChunks := st.stdoutChunks ++ [line]
                        debugSink := st.debugSink ++ [line] } from by
          simp [onStdoutLine, hl, hst, hm]]
        rw [ih { st with stdoutChunks := st.stdoutChunks ++ [line]
                         debugSink := st.debugSink ++ [line] } hst]
        simp [List.find?, hne, hm]

theorem processStdout_batches (batches : List (List (List Char))) :
    ∀ st : SupState,
      batches.foldl processStdout st = processStdout st batches.flatten := by
  induction batches with
  | nil => intro st; rfl
  | cons b bs ih =>
    intro st
    simp only [List.foldl_cons, List.flatten_cons, processStdout,
      List.foldl_append]
    exact ih (List.foldl onStdoutLine st b)

/-- C8.  The readiness callback is one-shot: over any sequence of stdout
lines, `on_start` is scheduled exactly on the first non-empty line
containing the `"listening on"` marker (never again for later matching
lines, never at all without a matching line), every non-empty line is
forwarded to the debug sink regardless, and processing the lines batch
by batch — however the runtime splits them across `on_stdout`
invocations — equals processing them all at once. -/
theorem start_server_one_shot (lines : List (List Char)) :
    (processStdout initSup lines).onStartCalls =
      (lines.find? fun l => !l.isEmpty && hasMarker l).toList ∧
    (processStdout initSup lines).debugSink =
      (lines.filter fun l => !l.isEmpty) ∧
    (∀ batches : List (List (List Char)), batches.flatten = lines →
      batches.foldl processStdout initSup = processStdout initSup lines) := by
  refine ⟨?_, ?_, ?_⟩
  · simpa using processStdout_not_started lines initSup rfl
  · simpa using processStdout_debug lines initSup
  · intro batches hb
    rw [processStdout_batches batches initSup, hb]

/-- Witness for C8 (its batching conjunct has a hypothesis): the lines
`["boot", "", "listening on 127.0.0.1:3001", "listening on again"]`
schedule the callback exactly once, on the first marker line, forward
the three non-empty lines to the debug sink, and processing them as two
batches equals processing them flat. -/
theorem start_server_one_shot_witness :
    (processStdout initSup
        ["boot".toList, [], "listening on 127.0.0.1:3001".toList,
         "listening on again".toList]).onStartCalls =
      ["listening on 127.0.0.1:3001".toList] ∧
    (processStdout initSup
        ["boot".toList, [], "listening on 127.0.0.1:3001".toList,
         "listening on again".toList]).debugSink =
      ["boot".toList, "listening on 127.0.0.1:3001".toList,
       "listening on again".toList] ∧
    [["boot".toList, []],
     ["listening on 127.0.0.1:3001".toList, "listening on again".toList]
      ].foldl processStdout initSup =
      processStdout initSup
        ["boot".toList, [], "listening on 127.0.0.1:3001".toList,
         "listening on again".toList] := by
  have h := start_server_one_shot
    ["boot".toList, [], "listening on 127.0.0.1:3001".toList,
     "listening on again".toList]
  refine ⟨?_, ?_, h.2.2 _ (by decide)⟩
  · rw [h.1]; decide
  · rw [h.2.1]; decide

end Strudel
